import Mathlib

/-!
Shallow embedding of `mod_logfile_domain.c`, the FreeSWITCH domain-specific
filesystem logging module (src/mod_logfile_domain/mod_logfile_domain.c).

Modelling conventions:
* Every C function of the module becomes a pure Lean function of the same name.
* The filesystem is an oracle: each `switch_file_open` call is answered by an
  `Option Nat` (`some diskSize` = success together with the value later read by
  `switch_file_get_size`; `none` = failure), and each `switch_file_write`
  attempt by a `WriteAttemptRes`.  Following APR (`apr_file_write`), a failed
  write reports zero bytes written through its in/out length argument, while a
  successful write reports the (possibly short) count actually written.
* C strings are Lean `String`s / `List Char` (they carry no NUL byte); byte
  counts of ASCII data coincide with character counts.
* Mutable module state (the domain hash, `globals.cache_entries`, allocation
  counters, and the number of currently open file handles) is threaded through
  a `ModuleState` record.  Locks serialize the C code; the model is the
  resulting sequential semantics, one operation at a time.
-/

/-- Status codes.  The modelled code paths only ever produce
`SWITCH_STATUS_SUCCESS` and `SWITCH_STATUS_FALSE`. -/
inductive SwitchStatus
  | success
  | falseStatus
  deriving DecidableEq, Repr

/-- Outcome of one `switch_file_write` attempt: `ok w` = the call returned
`SWITCH_STATUS_SUCCESS` and reported `w` bytes written; `err` = the call
failed (and, as in APR, reported zero bytes written). -/
inductive WriteAttemptRes
  | ok (written : Nat)
  | err
  deriving DecidableEq, Repr

/-- Byte count a `switch_file_write` attempt reports through its `&len`
argument. -/
def writtenOf : WriteAttemptRes → Nat
  | WriteAttemptRes.ok w => w
  | WriteAttemptRes.err => 0

/-- Whether a write attempt returned a status other than success. -/
def isErr : WriteAttemptRes → Bool
  | WriteAttemptRes.ok _ => false
  | WriteAttemptRes.err => true

/-- Filesystem oracle for one `write_domain_log` call: the answer to the
`switch_file_open` possibly performed inside `get_domain_entry`
(`getOpen`), the first `switch_file_write` attempt (`firstWrite`, consulted
only when a handle is present), the reopen attempt (`reopen`), and the
retried write (`retryWrite`, consulted only when the reopen succeeded). -/
structure WriteEnv where
  getOpen : Option Nat
  firstWrite : WriteAttemptRes
  reopen : Option Nat
  retryWrite : WriteAttemptRes
  deriving DecidableEq, Repr

/-- `#define DEFAULT_LIMIT 0xA00000` -/
def DEFAULT_LIMIT : Nat := 0xA00000

/-- `#define MAX_DOMAIN_CACHE_SIZE 256` -/
def MAX_DOMAIN_CACHE_SIZE : Nat := 256

/-- `domain_cache_entry_t`.  `eid` is the allocation identity of the entry
(the C heap address, abstracted as a creation index): it lets the model state
that two lookups return the *same* entry object.  `domain` is the
`char domain[128]` field (a truncated copy of the key), `log_file` the
optional open handle (`switch_file_t *`), `log_size` and `roll_size` the two
byte counters, `logfile_path` the `char logfile_path[512]` field. -/
structure domain_cache_entry_t where
  eid : Nat
  domain : String
  log_file : Option Nat
  log_size : Nat
  roll_size : Nat
  logfile_path : String
  deriving DecidableEq, Repr

/-- Whole-module mutable state: `SWITCH_GLOBAL_dirs.log_dir` (read-only),
`domain_hash` (`none` once destroyed by shutdown), `globals.cache_entries`,
fresh-identity counters for entries and file handles, and the number of file
handles the module currently holds open. -/
structure ModuleState where
  log_dir : String
  domain_hash : Option (List (String × domain_cache_entry_t))
  cache_entries : Nat
  nextEid : Nat
  nextHandle : Nat
  openHandles : Nat
  deriving DecidableEq, Repr

/-- Association-list lookup: first binding wins (hash lookup). -/
def assocFind : List (String × domain_cache_entry_t) → String → Option domain_cache_entry_t
  | [], _ => none
  | p :: rest, k => if p.1 = k then some p.2 else assocFind rest k

/-- Association-list update of every binding of key `k` (pointer mutation of
the cached entry, seen through the hash). -/
def assocUpdate : List (String × domain_cache_entry_t) → String → domain_cache_entry_t →
    List (String × domain_cache_entry_t)
  | [], _, _ => []
  | p :: rest, k, e =>
      if p.1 = k then (k, e) :: assocUpdate rest k e else p :: assocUpdate rest k e

/-- Keys of the list are pairwise distinct. -/
def keysNodupB : List (String × domain_cache_entry_t) → Bool
  | [] => true
  | p :: rest => !(assocFind rest p.1).isSome && keysNodupB rest

/-- One if the entry currently holds an open handle, else zero. -/
def openBit (e : domain_cache_entry_t) : Nat := if e.log_file.isSome then 1 else 0

/-- Number of cached entries currently holding an open handle. -/
def openCount (l : List (String × domain_cache_entry_t)) : Nat :=
  (l.filter (fun p => p.2.log_file.isSome)).length

/-- Every entry with its handle closed (the effect of `close_all_domain_logs`
on the cached entries). -/
def closeEntries (l : List (String × domain_cache_entry_t)) :
    List (String × domain_cache_entry_t) :=
  l.map (fun p => (p.1, { p.2 with log_file := none }))

/-- `switch_core_hash_find`.  Modelled from the spec for the destroyed hash:
after shutdown the cache is gone, a lookup finds nothing. -/
def hashFind (h : Option (List (String × domain_cache_entry_t))) (k : String) :
    Option domain_cache_entry_t :=
  match h with
  | none => none
  | some l => assocFind l k

/-- `switch_core_hash_insert_destructor`.  Modelled from the spec for the
destroyed hash: after shutdown an insertion is discarded. -/
def hashInsert (h : Option (List (String × domain_cache_entry_t))) (k : String)
    (e : domain_cache_entry_t) : Option (List (String × domain_cache_entry_t)) :=
  match h with
  | none => none
  | some l => some (l ++ [(k, e)])

/-- Mutation of the cached entry bound to `k`, as seen through the hash
(the C code mutates the entry through its pointer; the binding, when present,
thus holds the new value). -/
def storeEntry (st : ModuleState) (k : String) (e : domain_cache_entry_t) : ModuleState :=
  match st.domain_hash with
  | none => st
  | some l => { st with domain_hash := some (assocUpdate l k e) }

/-- The cached bindings (empty once the hash is destroyed). -/
def entriesOf (st : ModuleState) : List (String × domain_cache_entry_t) :=
  st.domain_hash.getD []

/-- Key uniqueness, lifted to the optional hash. -/
def keysNodupOpt : Option (List (String × domain_cache_entry_t)) → Bool
  | none => true
  | some l => keysNodupB l

/-- `switch_snprintf` into a buffer of `n + 1` bytes: keeps at most `n`
characters. -/
def snprintf_cap (n : Nat) (s : String) : String := String.mk (s.toList.take n)

/-- `switch_copy_string(dst, src, bufLen)`: copies at most `bufLen - 1`
characters and NUL-terminates. -/
def switch_copy_string (s : String) (bufLen : Nat) : String :=
  String.mk (s.toList.take (bufLen - 1))

/-- The `switch_snprintf(entry->logfile_path, 512, "%s%sdomain_%s.log", ...)`
path computation. -/
def logfilePathFor (log_dir domain : String) : String :=
  snprintf_cap 511 (log_dir ++ "/" ++ "domain_" ++ domain ++ ".log")

/-- `open_domain_logfile`: open the entry's path (create / read / write /
append).  On success the handle is stored and `log_size` is reset to the
file's current on-disk size (`switch_file_get_size`); on failure the entry is
left untouched and `SWITCH_STATUS_FALSE` is returned. -/
def open_domain_logfile (st : ModuleState) (entry : domain_cache_entry_t)
    (openRes : Option Nat) : SwitchStatus × domain_cache_entry_t × ModuleState :=
  match openRes with
  | none => (SwitchStatus.falseStatus, entry, st)
  | some diskSize =>
      (SwitchStatus.success,
       { entry with log_file := some st.nextHandle, log_size := diskSize },
       { st with nextHandle := st.nextHandle + 1, openHandles := st.openHandles + 1 })

/-- Result of `get_domain_entry`: the C function returns an entry pointer or
NULL; the constructors record which code path produced the result
(`rejectedFull` is the branch that logs the "Cache full" warning). -/
inductive GetOutcome
  | found (e : domain_cache_entry_t)
  | created (e : domain_cache_entry_t)
  | rejectedEmpty
  | rejectedFull
  | rejectedOpenFail
  deriving DecidableEq, Repr

/-- The entry pointer the C caller sees (NULL for the rejections). -/
def entryOf : GetOutcome → Option domain_cache_entry_t
  | GetOutcome.found e => some e
  | GetOutcome.created e => some e
  | _ => none

/-- `get_domain_entry`: under the global lock, look the domain up; create,
open and insert a new entry when absent and the cache is below
`MAX_DOMAIN_CACHE_SIZE`; reject (returning NULL) on an empty key, a full
cache, or an open failure. -/
def get_domain_entry (st : ModuleState) (domain : String) (openRes : Option Nat) :
    GetOutcome × ModuleState :=
  if domain.isEmpty then (GetOutcome.rejectedEmpty, st)
  else
    match hashFind st.domain_hash domain with
    | some entry => (GetOutcome.found entry, st)
    | none =>
      if MAX_DOMAIN_CACHE_SIZE ≤ st.cache_entries then (GetOutcome.rejectedFull, st)
      else
        let entry0 : domain_cache_entry_t :=
          { eid := st.nextEid
            domain := switch_copy_string domain 128
            log_file := none
            log_size := 0
            roll_size := DEFAULT_LIMIT
            logfile_path := logfilePathFor st.log_dir domain }
        let st0 := { st with nextEid := st.nextEid + 1 }
        match open_domain_logfile st0 entry0 openRes with
        | (SwitchStatus.success, entry1, st1) =>
            (GetOutcome.created entry1,
             { st1 with domain_hash := hashInsert st1.domain_hash domain entry1,
                        cache_entries := st1.cache_entries + 1 })
        | (SwitchStatus.falseStatus, _e, st1) => (GetOutcome.rejectedOpenFail, st1)

/-- Lines 235–258 of `write_domain_log`, the per-entry locked write/retry
protocol (§4.3 FileEntry.write): if the handle is absent or the first write
attempt fails, close the stale handle, reopen, and retry once; the retried
write's return value is not inspected by the C code.  `status` is set to
`SWITCH_STATUS_FALSE` only when the reopen fails, and
`entry->log_size += len` runs whenever `status` is still success. -/
def fileEntryWrite (st : ModuleState) (entry : domain_cache_entry_t) (_data : String)
    (env : WriteEnv) : SwitchStatus × domain_cache_entry_t × ModuleState :=
  if entry.log_file.isNone || isErr env.firstWrite then
    let entry1 := { entry with log_file := none }
    let st1 := if entry.log_file.isSome then { st with openHandles := st.openHandles - 1 } else st
    match open_domain_logfile st1 entry1 env.reopen with
    | (SwitchStatus.success, entry2, st2) =>
        (SwitchStatus.success,
         { entry2 with log_size := entry2.log_size + writtenOf env.retryWrite }, st2)
    | (SwitchStatus.falseStatus, entry2, st2) => (SwitchStatus.falseStatus, entry2, st2)
  else
    (SwitchStatus.success,
     { entry with log_size := entry.log_size + writtenOf env.firstWrite }, st)

/-- `write_domain_log`: NULL-checks, `get_domain_entry`, then the locked
write/retry protocol; the mutated entry is visible through its hash binding. -/
def write_domain_log (st : ModuleState) (domain log_data : Option String)
    (env : WriteEnv) : SwitchStatus × ModuleState :=
  match domain, log_data with
  | some d, some data =>
      let g := get_domain_entry st d env.getOpen
      match entryOf g.1 with
      | none => (SwitchStatus.falseStatus, g.2)
      | some entry =>
          let w := fileEntryWrite g.2 entry data env
          (w.1, storeEntry w.2.2 d w.2.1)
  | _, _ => (SwitchStatus.falseStatus, st)

/-- C `isspace` on the default locale's ASCII range. -/
def isspaceC (c : Char) : Bool :=
  c = ' ' || c = '\t' || c = '\n' || c = '\x0b' || c = '\x0c' || c = '\r'

/-- C `isprint` on the default locale's ASCII range. -/
def isprintC (c : Char) : Bool := decide (0x20 ≤ c.toNat ∧ c.toNat ≤ 0x7e)

/-- The copying loop of `extract_domain_from_msg`:
`while (*p && !isspace((unsigned char)*p) && i + 1 < sizeof(domainbuf))`.
Note the C condition tests `isspace` only (its comment promises a
non-printable check that is not performed). -/
def copyDomainRun : List Char → Nat → List Char
  | [], _ => []
  | c :: rest, i =>
      if !isspaceC c && i + 1 < 128 then c :: copyDomainRun rest (i + 1) else []

/-- `strstr(hay, pat)` followed by `p += strlen(pat)`: the remainder of `hay`
just past the first occurrence of `pat`, or `none` when `pat` does not
occur. -/
def strstrAfter : List Char → List Char → Option (List Char)
  | [], pat => if pat.isEmpty then some [] else none
  | c :: rest, pat =>
      if pat.isPrefixOf (c :: rest) then some ((c :: rest).drop pat.length)
      else strstrAfter rest pat

/-- `extract_domain_from_msg`: scan the rendered text for `domain_name=`,
falling back to `domain=`; capture the following run of characters (see
`copyDomainRun`); an empty capture yields NULL. -/
def extract_domain_from_msg (msg : Option String) : Option String :=
  match msg with
  | none => none
  | some m =>
      let chars := m.toList
      let after :=
        match strstrAfter chars ("domain_name=".toList) with
        | some rest => some rest
        | none => strstrAfter chars ("domain=".toList)
      match after with
      | none => none
      | some p =>
          let run := copyDomainRun p 0
          if run.isEmpty then none else some (String.mk run)

/-- The channel attributes the module reads: the two string variables and the
session UUID. -/
structure Channel where
  domain_name : Option String
  domainVar : Option String
  uuid : Option String
  deriving DecidableEq, Repr

/-- `switch_channel_get_variable` for the two names the module uses. -/
def switch_channel_get_variable (ch : Channel) (name : String) : Option String :=
  if name = "domain_name" then ch.domain_name
  else if name = "domain" then ch.domainVar
  else none

/-- `zstr`: NULL or empty. -/
def zstr : Option String → Bool
  | none => true
  | some t => t.isEmpty

/-- `extract_domain`: `domain_name` channel variable if non-empty, else the
`domain` variable if non-empty, else NULL.  The value is returned verbatim,
with no truncation. -/
def extract_domain (channel : Option Channel) : Option String :=
  match channel with
  | none => none
  | some ch =>
      let d := switch_channel_get_variable ch "domain_name"
      if !zstr d then d
      else
        let d2 := switch_channel_get_variable ch "domain"
        if !zstr d2 then d2 else none

/-- Lines 294–309 of the logger: context extraction first; the text-scanning
fallback runs only when the context produced nothing and the rendered message
is non-empty. -/
def resolve_domain (channel : Option Channel) (rendered_msg : String) : Option String :=
  let domain0 := extract_domain channel
  if zstr domain0 && !rendered_msg.isEmpty then
    match extract_domain_from_msg (some rendered_msg) with
    | some f => some f
    | none => domain0
  else domain0

/-- The fields of `switch_log_node_t` the module reads.  `userdata` is the
optional session (`some ch` when a session is present, holding its channel
when `switch_core_session_get_channel` yields one). -/
structure LogNode where
  file : Option String
  func : Option String
  line : Nat
  userdata : Option (Option Channel)
  deriving DecidableEq, Repr

/-- Lines 281–286: rendering through the optional capability.  The outer
`Option` is whether `switch_log_node_render` was resolved at load; the inner
one is whether this call succeeded.  Unresolved or failed rendering leaves
the buffer empty. -/
def renderOutcome : Option (Option String) → String
  | none => ""
  | some none => ""
  | some (some s) => s

/-- Line 289, the anti-recursion filter:
`node->file && strstr(node->file, "mod_logfile_domain")`. -/
def isInternalNode (nd : LogNode) : Bool :=
  match nd.file with
  | none => false
  | some f => (strstrAfter f.toList ("mod_logfile_domain".toList)).isSome

/-- `switch_core_session_get_channel` on `node->userdata`, when present. -/
def channelOf (nd : LogNode) : Option Channel :=
  match nd.userdata with
  | none => none
  | some ch => ch

/-- Lines 313–336: the formatted log line.  `date` is the `switch_strftime`
output, `levelStr` the `switch_log_level2str` name; an empty rendered message
is replaced by the `"(message)"` placeholder; the UUID suffix is appended
only when a channel is present; `switch_snprintf` caps the 2048-byte
buffer. -/
def mkLogLine (date levelStr : String) (nd : LogNode) (channel : Option Channel)
    (rendered_msg : String) : String :=
  let fileStr := nd.file.getD "unknown"
  let funcStr := nd.func.getD "unknown"
  let msgStr := if rendered_msg.isEmpty then "(message)" else rendered_msg
  let base := date ++ " [" ++ levelStr ++ "] [" ++ fileStr ++ ":" ++ funcStr ++ ":" ++
    toString nd.line ++ "] " ++ msgStr
  snprintf_cap 2047
    (match channel with
     | some ch => base ++ " [" ++ ch.uuid.getD "unknown" ++ "]\n"
     | none => base ++ "\n")

/-- `mod_logfile_domain_logger`, the per-event entry point: every return site
of the C function returns `SWITCH_STATUS_SUCCESS`; the result of
`write_domain_log` is discarded. -/
def mod_logfile_domain_logger (st : ModuleState) (node : Option LogNode)
    (levelStr : String) (renderPtr : Option (Option String)) (date : String)
    (wenv : WriteEnv) : SwitchStatus × ModuleState :=
  match node with
  | none => (SwitchStatus.success, st)
  | some nd =>
      let rendered_msg := renderOutcome renderPtr
      if isInternalNode nd then (SwitchStatus.success, st)
      else
        let channel := channelOf nd
        let domain := resolve_domain channel rendered_msg
        if !zstr domain then
          let log_line := mkLogLine date levelStr nd channel rendered_msg
          (SwitchStatus.success, (write_domain_log st domain (some log_line) wenv).2)
        else (SwitchStatus.success, st)

/-- `close_all_domain_logs`: under the global lock, close every cached
entry's open handle and mark it absent. -/
def close_all_domain_logs (st : ModuleState) : ModuleState :=
  match st.domain_hash with
  | none => st
  | some l =>
      { st with domain_hash := some (closeEntries l),
                openHandles := st.openHandles - openCount l }

/-- `switch_core_hash_destroy`: run the entries' destructors (closing any
handle still open) and drop the hash.  The entry counter is not reset. -/
def hashDestroy (st : ModuleState) : ModuleState :=
  match st.domain_hash with
  | none => st
  | some l => { st with domain_hash := none, openHandles := st.openHandles - openCount l }

/-- `mod_logfile_domain_shutdown`: unbind the logger (no further logger
operations enter the trace), close every cached handle, destroy the hash. -/
def mod_logfile_domain_shutdown (st : ModuleState) : ModuleState :=
  hashDestroy (close_all_domain_logs st)

/-- `mod_logfile_domain_load`: zeroed globals, fresh empty hash.  (The
one-time diagnostic file is opened and closed inside load and holds no
handle afterwards.) -/
def initState (log_dir : String) : ModuleState :=
  { log_dir := log_dir, domain_hash := some [], cache_entries := 0,
    nextEid := 0, nextHandle := 0, openHandles := 0 }

/-- One externally triggered operation on the module state. -/
inductive ModuleOp
  | opGet (domain : String) (openRes : Option Nat)
  | opWrite (domain log_data : Option String) (env : WriteEnv)
  | opCloseAll
  | opShutdown
  deriving DecidableEq, Repr

/-- State transition of one operation. -/
def stepOp (st : ModuleState) : ModuleOp → ModuleState
  | ModuleOp.opGet d o => (get_domain_entry st d o).2
  | ModuleOp.opWrite d data env => (write_domain_log st d data env).2
  | ModuleOp.opCloseAll => close_all_domain_logs st
  | ModuleOp.opShutdown => mod_logfile_domain_shutdown st

/-- Run a sequence of operations. -/
def runOps (st : ModuleState) (ops : List ModuleOp) : ModuleState :=
  ops.foldl stepOp st

/-- Whether the operation is the shutdown teardown. -/
def isShutdownOp : ModuleOp → Bool
  | ModuleOp.opShutdown => true
  | _ => false

/-- No shutdown occurs in the sequence. -/
def noShutdown (ops : List ModuleOp) : Bool := ops.all (fun op => !isShutdownOp op)

/-- Reachability invariant of the live cache: the hash exists, its keys are
unique, the entry counter equals the number of bindings, and the module's
open-handle count equals the number of entries holding an open handle. -/
def CacheInv (st : ModuleState) : Prop :=
  ∃ l, st.domain_hash = some l ∧ keysNodupB l = true ∧
    st.cache_entries = l.length ∧ st.openHandles = openCount l

/-- Modelled from the spec: `writtenBytes` bookkeeping of one
FileEntry.write call — grown by the bytes successfully written, reset to the
file's on-disk size when a reopen happens, unchanged when the reopen fails
(§3 `writtenBytes`, §4.3 step 3). -/
def spec_written_bytes (entry : domain_cache_entry_t) (env : WriteEnv) : Nat :=
  match entry.log_file, env.firstWrite with
  | some _, WriteAttemptRes.ok w => entry.log_size + w
  | _, _ =>
      match env.reopen with
      | some diskSize => diskSize + writtenOf env.retryWrite
      | none => entry.log_size

/-- The entry `get_domain_entry` allocates for a previously-unseen domain
(lines 126–141), after a successful open. -/
def createdEntry (st : ModuleState) (d : String) (diskSize : Nat) : domain_cache_entry_t :=
  { eid := st.nextEid, domain := switch_copy_string d 128,
    log_file := some st.nextHandle, log_size := diskSize,
    roll_size := DEFAULT_LIMIT, logfile_path := logfilePathFor st.log_dir d }

/-- The module state after `get_domain_entry` creates, opens and inserts a
new entry. -/
def createdState (st : ModuleState) (d : String) (diskSize : Nat) : ModuleState :=
  { st with nextEid := st.nextEid + 1, nextHandle := st.nextHandle + 1,
            openHandles := st.openHandles + 1,
            domain_hash := hashInsert st.domain_hash d (createdEntry st d diskSize),
            cache_entries := st.cache_entries + 1 }

/-! ### Association-list lemmas -/

theorem assocFind_append_single (l : List (String × domain_cache_entry_t)) (k : String)
    (e : domain_cache_entry_t) (j : String) :
    assocFind (l ++ [(k, e)]) j =
      (match assocFind l j with
       | some x => some x
       | none => if k = j then some e else none) := by
  induction l with
  | nil => simp [assocFind]
  | cons p rest ih => by_cases hp : p.1 = j <;> simp [assocFind, hp, ih]

theorem assocFind_append_some {l : List (String × domain_cache_entry_t)} {j : String}
    {x : domain_cache_entry_t} (h : assocFind l j = some x) (k : String)
    (e : domain_cache_entry_t) : assocFind (l ++ [(k, e)]) j = some x := by
  rw [assocFind_append_single, h]

theorem assocFind_append_miss {l : List (String × domain_cache_entry_t)} {k : String}
    (h : assocFind l k = none) (e : domain_cache_entry_t) :
    assocFind (l ++ [(k, e)]) k = some e := by
  rw [assocFind_append_single, h]
  simp

theorem assocFind_update_ne {j k : String} (hne : j ≠ k)
    (l : List (String × domain_cache_entry_t)) (e : domain_cache_entry_t) :
    assocFind (assocUpdate l k e) j = assocFind l j := by
  induction l with
  | nil => simp [assocUpdate]
  | cons p rest ih =>
      by_cases hp : p.1 = k
      · have hkj : ¬ (k = j) := fun h => hne h.symm
        simp [assocUpdate, hp, assocFind, hkj, ih]
      · simp [assocUpdate, hp, assocFind, ih]

theorem assocFind_update_self {l : List (String × domain_cache_entry_t)} {k : String}
    {x : domain_cache_entry_t} (h : assocFind l k = some x) (e : domain_cache_entry_t) :
    assocFind (assocUpdate l k e) k = some e := by
  induction l with
  | nil => simp [assocFind] at h
  | cons p rest ih =>
      by_cases hp : p.1 = k
      · simp [assocUpdate, hp, assocFind]
      · have h' : assocFind rest k = some x := by simpa [assocFind, hp] using h
        simpa [assocUpdate, hp, assocFind] using ih h'

theorem assocUpdate_miss {l : List (String × domain_cache_entry_t)} {k : String}
    (h : assocFind l k = none) (e : domain_cache_entry_t) : assocUpdate l k e = l := by
  induction l with
  | nil => rfl
  | cons p rest ih =>
      by_cases hp : p.1 = k
      · simp [assocFind, hp] at h
      · simp [assocFind, hp] at h
        simp [assocUpdate, hp, ih h]

theorem assocUpdate_length (l : List (String × domain_cache_entry_t)) (k : String)
    (e : domain_cache_entry_t) : (assocUpdate l k e).length = l.length := by
  induction l with
  | nil => rfl
  | cons p rest ih => by_cases hp : p.1 = k <;> simp [assocUpdate, hp, ih]

theorem assocFind_update_isSome (l : List (String × domain_cache_entry_t)) (k : String)
    (e : domain_cache_entry_t) (j : String) :
    (assocFind (assocUpdate l k e) j).isSome = (assocFind l j).isSome := by
  induction l with
  | nil => simp [assocUpdate]
  | cons p rest ih =>
      by_cases hp : p.1 = k
      · by_cases hkj : k = j
        · simp [assocUpdate, hp, assocFind, hkj]
        · simp [assocUpdate, hp, assocFind, hkj, ih]
      · by_cases hj : p.1 = j
        · have hjk : ¬(j = k) := by rw [← hj]; exact hp
          simp [assocUpdate, hp, assocFind, hj, hjk]
        · simp [assocUpdate, hp, assocFind, hj, ih]

theorem keysNodupB_update (l : List (String × domain_cache_entry_t)) (k : String)
    (e : domain_cache_entry_t) : keysNodupB (assocUpdate l k e) = keysNodupB l := by
  induction l with
  | nil => rfl
  | cons p rest ih =>
      by_cases hp : p.1 = k
      · simp [assocUpdate, hp, keysNodupB, assocFind_update_isSome, ih]
      · simp [assocUpdate, hp, keysNodupB, assocFind_update_isSome, ih]

theorem keysNodupB_append {l : List (String × domain_cache_entry_t)} {k : String}
    (hmiss : assocFind l k = none) (hnd : keysNodupB l = true) (e : domain_cache_entry_t) :
    keysNodupB (l ++ [(k, e)]) = true := by
  induction l with
  | nil => simp [keysNodupB, assocFind]
  | cons p rest ih =>
      simp only [keysNodupB, Bool.and_eq_true, Bool.not_eq_true'] at hnd
      obtain ⟨h1, h2⟩ := hnd
      by_cases hp : p.1 = k
      · simp [assocFind, hp] at hmiss
      · simp [assocFind, hp] at hmiss
        have h1' : assocFind rest p.1 = none := Option.not_isSome_iff_eq_none.mp (by simp [h1])
        have hmem : assocFind (rest ++ [(k, e)]) p.1 = none := by
          rw [assocFind_append_single, h1']
          exact if_neg (Ne.symm hp)
        show (!(assocFind (rest ++ [(k, e)]) p.1).isSome && keysNodupB (rest ++ [(k, e)])) = true
        rw [hmem, ih hmiss h2]
        rfl

theorem closeEntries_cons (p : String × domain_cache_entry_t)
    (l : List (String × domain_cache_entry_t)) :
    closeEntries (p :: l) = (p.1, { p.2 with log_file := none }) :: closeEntries l := rfl

theorem assocFind_closeEntries (l : List (String × domain_cache_entry_t)) (j : String) :
    assocFind (closeEntries l) j =
      (assocFind l j).map (fun x => { x with log_file := none }) := by
  induction l with
  | nil => rfl
  | cons p rest ih =>
      rw [closeEntries_cons]
      by_cases hp : p.1 = j <;> simp [assocFind, hp, ih]

theorem keysNodupB_closeEntries (l : List (String × domain_cache_entry_t)) :
    keysNodupB (closeEntries l) = keysNodupB l := by
  induction l with
  | nil => rfl
  | cons p rest ih =>
      rw [closeEntries_cons]
      simp [keysNodupB, assocFind_closeEntries, ih]

theorem closeEntries_length (l : List (String × domain_cache_entry_t)) :
    (closeEntries l).length = l.length := by
  simp [closeEntries]

theorem openCount_cons (p : String × domain_cache_entry_t)
    (l : List (String × domain_cache_entry_t)) :
    openCount (p :: l) = openBit p.2 + openCount l := by
  by_cases h : p.2.log_file.isSome
  · simp [openCount, List.filter_cons, h, openBit]
    omega
  · simp [openCount, List.filter_cons, h, openBit]

theorem openCount_append (l m : List (String × domain_cache_entry_t)) :
    openCount (l ++ m) = openCount l + openCount m := by
  simp [openCount, List.filter_append]

theorem openCount_closeEntries (l : List (String × domain_cache_entry_t)) :
    openCount (closeEntries l) = 0 := by
  induction l with
  | nil => rfl
  | cons p rest ih => simpa [closeEntries, openCount_cons, openBit] using ih

theorem openBit_le_openCount {l : List (String × domain_cache_entry_t)} {j : String}
    {x : domain_cache_entry_t} (h : assocFind l j = some x) : openBit x ≤ openCount l := by
  induction l with
  | nil => simp [assocFind] at h
  | cons p rest ih =>
      rw [openCount_cons]
      by_cases hp : p.1 = j
      · simp [assocFind, hp] at h
        subst h
        omega
      · simp [assocFind, hp] at h
        have := ih h
        omega

theorem openCount_update {l : List (String × domain_cache_entry_t)} {k : String}
    {x : domain_cache_entry_t} (hnd : keysNodupB l = true) (h : assocFind l k = some x)
    (e : domain_cache_entry_t) :
    openCount (assocUpdate l k e) + openBit x = openCount l + openBit e := by
  induction l with
  | nil => simp [assocFind] at h
  | cons p rest ih =>
      simp only [keysNodupB, Bool.and_eq_true, Bool.not_eq_true'] at hnd
      obtain ⟨h1, h2⟩ := hnd
      by_cases hp : p.1 = k
      · simp [assocFind, hp] at h
        have hmiss : assocFind rest k = none := by
          rw [← hp]
          exact Option.not_isSome_iff_eq_none.mp (by simp [h1])
        rw [show assocUpdate (p :: rest) k e = (k, e) :: assocUpdate rest k e by
              simp [assocUpdate, hp],
            assocUpdate_miss hmiss, openCount_cons, openCount_cons, ← h]
        simp
        omega
      · simp [assocFind, hp] at h
        rw [show assocUpdate (p :: rest) k e = p :: assocUpdate rest k e by
              simp [assocUpdate, hp],
            openCount_cons, openCount_cons]
        have := ih h2 h
        omega

/-! ### Characterisation of `get_domain_entry` and `fileEntryWrite` -/

theorem get_cases (st : ModuleState) (d : String) (o : Option Nat) :
    (d.isEmpty = true ∧ get_domain_entry st d o = (GetOutcome.rejectedEmpty, st))
  ∨ (∃ e, d.isEmpty = false ∧ hashFind st.domain_hash d = some e ∧
        get_domain_entry st d o = (GetOutcome.found e, st))
  ∨ (d.isEmpty = false ∧ hashFind st.domain_hash d = none ∧
        MAX_DOMAIN_CACHE_SIZE ≤ st.cache_entries ∧
        get_domain_entry st d o = (GetOutcome.rejectedFull, st))
  ∨ (d.isEmpty = false ∧ hashFind st.domain_hash d = none ∧
        st.cache_entries < MAX_DOMAIN_CACHE_SIZE ∧ o = none ∧
        get_domain_entry st d o =
          (GetOutcome.rejectedOpenFail, { st with nextEid := st.nextEid + 1 }))
  ∨ (∃ s, d.isEmpty = false ∧ hashFind st.domain_hash d = none ∧
        st.cache_entries < MAX_DOMAIN_CACHE_SIZE ∧ o = some s ∧
        get_domain_entry st d o =
          (GetOutcome.created (createdEntry st d s), createdState st d s)) := by
  by_cases hd : d.isEmpty
  · exact Or.inl ⟨hd, by simp [get_domain_entry, hd]⟩
  · have hd' : d.isEmpty = false := by simpa using hd
    cases hf : hashFind st.domain_hash d with
    | some e =>
        exact Or.inr (Or.inl ⟨e, hd', rfl, by simp [get_domain_entry, hd, hf]⟩)
    | none =>
        by_cases hc : MAX_DOMAIN_CACHE_SIZE ≤ st.cache_entries
        · exact Or.inr (Or.inr (Or.inl ⟨hd', rfl, hc, by simp [get_domain_entry, hd, hf, hc]⟩))
        · have hc' : st.cache_entries < MAX_DOMAIN_CACHE_SIZE := Nat.lt_of_not_le hc
          cases o with
          | none =>
              refine Or.inr (Or.inr (Or.inr (Or.inl ⟨hd', rfl, hc', rfl, ?_⟩)))
              simp [get_domain_entry, hd, hf, hc, open_domain_logfile]
          | some s =>
              refine Or.inr (Or.inr (Or.inr (Or.inr ⟨s, hd', rfl, hc', rfl, ?_⟩)))
              simp [get_domain_entry, hd, hf, hc, open_domain_logfile, createdEntry,
                createdState]

theorem get_d_nonempty {st : ModuleState} {d : String} {o : Option Nat}
    {e : domain_cache_entry_t} (h : entryOf (get_domain_entry st d o).1 = some e) :
    d.isEmpty = false := by
  rcases get_cases st d o with ⟨hd, hgo⟩ | ⟨x, hd, _, hgo⟩ | ⟨hd, _, _, hgo⟩ |
    ⟨hd, _, _, _, hgo⟩ | ⟨s, hd, _, _, _, hgo⟩ <;> first
    | exact hd
    | (rw [hgo] at h; simp [entryOf] at h)

theorem get_found_of_binding {st : ModuleState} {d : String}
    {e : domain_cache_entry_t} (hd : d.isEmpty = false)
    (h : hashFind st.domain_hash d = some e) (o : Option Nat) :
    get_domain_entry st d o = (GetOutcome.found e, st) := by
  simp [get_domain_entry, hd, h]

theorem get_find_pres {st : ModuleState} {k : String} {e : domain_cache_entry_t}
    (h : hashFind st.domain_hash k = some e) (d : String) (o : Option Nat) :
    hashFind (get_domain_entry st d o).2.domain_hash k = some e := by
  rcases get_cases st d o with ⟨_, hgo⟩ | ⟨x, _, _, hgo⟩ | ⟨_, _, _, hgo⟩ |
    ⟨_, _, _, _, hgo⟩ | ⟨s, _, hf, _, _, hgo⟩
  · rw [hgo]; exact h
  · rw [hgo]; exact h
  · rw [hgo]; exact h
  · rw [hgo]; exact h
  · rw [hgo]
    show hashFind (createdState st d s).domain_hash k = some e
    cases hh : st.domain_hash with
    | none => rw [hh] at h; simp [hashFind] at h
    | some l =>
        rw [hh] at h hf
        simp only [hashFind] at h hf ⊢
        simp only [createdState, hashInsert, hh]
        exact assocFind_append_some h d (createdEntry st d s)

theorem get_binding {st : ModuleState} {d : String} {o : Option Nat}
    {e : domain_cache_entry_t} (hs : st.domain_hash.isSome = true)
    (h : entryOf (get_domain_entry st d o).1 = some e) :
    hashFind (get_domain_entry st d o).2.domain_hash d = some e := by
  rcases get_cases st d o with ⟨_, hgo⟩ | ⟨x, _, hf, hgo⟩ | ⟨_, _, _, hgo⟩ |
    ⟨_, _, _, _, hgo⟩ | ⟨s, _, hf, _, _, hgo⟩
  · rw [hgo] at h; simp [entryOf] at h
  · rw [hgo] at h ⊢
    simp only [entryOf, Option.some.injEq] at h
    rw [← h]; exact hf
  · rw [hgo] at h; simp [entryOf] at h
  · rw [hgo] at h; simp [entryOf] at h
  · rw [hgo] at h ⊢
    simp only [entryOf, Option.some.injEq] at h
    cases hh : st.domain_hash with
    | none => rw [hh] at hs; simp at hs
    | some l =>
        rw [hh] at hf
        simp only [hashFind] at hf
        show hashFind (createdState st d s).domain_hash d = some e
        simp only [createdState, hashInsert, hh, hashFind]
        rw [← h]
        exact assocFind_append_miss hf (createdEntry st d s)

theorem fileEntryWrite_state (st : ModuleState) (entry : domain_cache_entry_t)
    (data : String) (env : WriteEnv) :
    (fileEntryWrite st entry data env).2.2.domain_hash = st.domain_hash ∧
    (fileEntryWrite st entry data env).2.2.cache_entries = st.cache_entries ∧
    (fileEntryWrite st entry data env).2.2.log_dir = st.log_dir := by
  unfold fileEntryWrite
  by_cases hc : (entry.log_file.isNone || isErr env.firstWrite) = true
  · simp only [hc, if_true]
    cases env.reopen with
    | none => by_cases hl : entry.log_file.isSome <;> simp [open_domain_logfile, hl]
    | some s => by_cases hl : entry.log_file.isSome <;> simp [open_domain_logfile, hl]
  · simp [hc]

theorem fileEntryWrite_immut (st : ModuleState) (entry : domain_cache_entry_t)
    (data : String) (env : WriteEnv) :
    (fileEntryWrite st entry data env).2.1.eid = entry.eid ∧
    (fileEntryWrite st entry data env).2.1.domain = entry.domain ∧
    (fileEntryWrite st entry data env).2.1.logfile_path = entry.logfile_path := by
  unfold fileEntryWrite
  by_cases hc : (entry.log_file.isNone || isErr env.firstWrite) = true
  · simp only [hc, if_true]
    cases env.reopen with
    | none => by_cases hl : entry.log_file.isSome <;> simp [open_domain_logfile, hl]
    | some s => by_cases hl : entry.log_file.isSome <;> simp [open_domain_logfile, hl]
  · simp [hc]

theorem fileEntryWrite_openHandles {st : ModuleState} {entry : domain_cache_entry_t}
    (hle : openBit entry ≤ st.openHandles) (data : String) (env : WriteEnv) :
    (fileEntryWrite st entry data env).2.2.openHandles + openBit entry =
      st.openHandles + openBit (fileEntryWrite st entry data env).2.1 := by
  unfold fileEntryWrite
  by_cases hc : (entry.log_file.isNone || isErr env.firstWrite) = true
  · simp only [hc, if_true]
    cases hl : entry.log_file with
    | none =>
        cases env.reopen with
        | none => simp [open_domain_logfile, openBit, hl]
        | some s => simp [open_domain_logfile, openBit, hl]
    | some h0 =>
        have hb : openBit entry = 1 := by simp [openBit, hl]
        rw [hb] at hle
        cases env.reopen with
        | none =>
            simp only [open_domain_logfile, hl, Option.isSome_some, if_true]
            rw [hb]
            simp only [openBit, Option.isSome_none, Bool.false_eq_true, if_false]
            omega
        | some s =>
            simp only [open_domain_logfile, hl, Option.isSome_some, if_true]
            rw [hb]
            simp only [openBit, Option.isSome_some, if_true]
            omega
  · simp only [hc, if_false]
    simp [openBit]

/-! ### `write_domain_log` decompositions and `storeEntry` facts -/

theorem write_null_left (st : ModuleState) (data : Option String) (env : WriteEnv) :
    write_domain_log st none data env = (SwitchStatus.falseStatus, st) := by
  cases data <;> rfl

theorem write_null_right (st : ModuleState) (d : String) (env : WriteEnv) :
    write_domain_log st (some d) none env = (SwitchStatus.falseStatus, st) := rfl

theorem write_eq_of_none {st : ModuleState} {d data : String} {env : WriteEnv}
    (hE : entryOf (get_domain_entry st d env.getOpen).1 = none) :
    write_domain_log st (some d) (some data) env =
      (SwitchStatus.falseStatus, (get_domain_entry st d env.getOpen).2) := by
  simp [write_domain_log, hE]

theorem write_eq_of_entry {st : ModuleState} {d data : String} {env : WriteEnv}
    {entry : domain_cache_entry_t}
    (hE : entryOf (get_domain_entry st d env.getOpen).1 = some entry) :
    write_domain_log st (some d) (some data) env =
      ((fileEntryWrite (get_domain_entry st d env.getOpen).2 entry data env).1,
       storeEntry (fileEntryWrite (get_domain_entry st d env.getOpen).2 entry data env).2.2 d
         (fileEntryWrite (get_domain_entry st d env.getOpen).2 entry data env).2.1) := by
  simp [write_domain_log, hE]

theorem storeEntry_hash_some {st : ModuleState} {l : List (String × domain_cache_entry_t)}
    (hh : st.domain_hash = some l) (k : String) (e : domain_cache_entry_t) :
    (storeEntry st k e).domain_hash = some (assocUpdate l k e) ∧
    (storeEntry st k e).cache_entries = st.cache_entries ∧
    (storeEntry st k e).openHandles = st.openHandles ∧
    (storeEntry st k e).log_dir = st.log_dir := by
  simp [storeEntry, hh]

theorem storeEntry_hash_none {st : ModuleState} (hh : st.domain_hash = none)
    (k : String) (e : domain_cache_entry_t) : storeEntry st k e = st := by
  simp [storeEntry, hh]

/-! ### Cache invariant preservation -/

theorem cacheInv_init (log_dir : String) : CacheInv (initState log_dir) :=
  ⟨[], rfl, rfl, rfl, rfl⟩

theorem get_cacheInv {st : ModuleState} (h : CacheInv st) (d : String) (o : Option Nat) :
    CacheInv (get_domain_entry st d o).2 := by
  obtain ⟨l, hh, hnd, hc, ho⟩ := h
  rcases get_cases st d o with ⟨_, hgo⟩ | ⟨x, _, hf, hgo⟩ | ⟨_, _, _, hgo⟩ |
    ⟨_, hf, _, _, hgo⟩ | ⟨s, _, hf, _, _, hgo⟩
  · rw [hgo]; exact ⟨l, hh, hnd, hc, ho⟩
  · rw [hgo]; exact ⟨l, hh, hnd, hc, ho⟩
  · rw [hgo]; exact ⟨l, hh, hnd, hc, ho⟩
  · rw [hgo]; exact ⟨l, by simpa using hh, hnd, by simpa using hc, by simpa using ho⟩
  · rw [hgo]
    rw [hh] at hf
    simp only [hashFind] at hf
    refine ⟨l ++ [(d, createdEntry st d s)], ?_, ?_, ?_, ?_⟩
    · simp [createdState, hashInsert, hh]
    · exact keysNodupB_append hf hnd (createdEntry st d s)
    · simp [createdState, hc]
    · simp only [createdState]
      rw [openCount_append, openCount_cons]
      simp [openBit, createdEntry, openCount, ho]

theorem write_cacheInv {st : ModuleState} (h : CacheInv st) (dom data : Option String)
    (env : WriteEnv) : CacheInv (write_domain_log st dom data env).2 := by
  cases dom with
  | none => rw [write_null_left]; exact h
  | some d =>
      cases data with
      | none => rw [write_null_right]; exact h
      | some s =>
          cases hE : entryOf (get_domain_entry st d env.getOpen).1 with
          | none => rw [write_eq_of_none hE]; exact get_cacheInv h d env.getOpen
          | some entry =>
              rw [write_eq_of_entry hE]
              have hsome : st.domain_hash.isSome = true := by
                obtain ⟨l, hh, _⟩ := h
                simp [hh]
              have hinv2 : CacheInv (get_domain_entry st d env.getOpen).2 :=
                get_cacheInv h d env.getOpen
              obtain ⟨l2, hh2, hnd2, hc2, ho2⟩ := hinv2
              have hbind := get_binding hsome hE
              rw [hh2] at hbind
              simp only [hashFind] at hbind
              have hle : openBit entry ≤ (get_domain_entry st d env.getOpen).2.openHandles := by
                rw [ho2]
                exact openBit_le_openCount hbind
              have hdel := fileEntryWrite_openHandles hle s env
              obtain ⟨hwh, hwc, hwd⟩ :=
                fileEntryWrite_state (get_domain_entry st d env.getOpen).2 entry s env
              have hwhash : (fileEntryWrite (get_domain_entry st d env.getOpen).2
                  entry s env).2.2.domain_hash = some l2 := by rw [hwh, hh2]
              obtain ⟨hsh, hsc, hso, hsd⟩ := storeEntry_hash_some hwhash d
                (fileEntryWrite (get_domain_entry st d env.getOpen).2 entry s env).2.1
              refine ⟨assocUpdate l2 d
                (fileEntryWrite (get_domain_entry st d env.getOpen).2 entry s env).2.1,
                hsh, ?_, ?_, ?_⟩
              · rw [keysNodupB_update]; exact hnd2
              · rw [hsc, hwc, hc2, assocUpdate_length]
              · rw [hso]
                have hcu := openCount_update hnd2 hbind
                  (fileEntryWrite (get_domain_entry st d env.getOpen).2 entry s env).2.1
                rw [ho2] at hdel
                omega

theorem closeAll_cacheInv {st : ModuleState} (h : CacheInv st) :
    CacheInv (close_all_domain_logs st) := by
  obtain ⟨l, hh, hnd, hc, ho⟩ := h
  refine ⟨closeEntries l, ?_, ?_, ?_, ?_⟩
  · simp [close_all_domain_logs, hh]
  · rw [keysNodupB_closeEntries]; exact hnd
  · simp [close_all_domain_logs, hh, closeEntries_length, hc]
  · simp [close_all_domain_logs, hh, openCount_closeEntries, ho]

theorem step_cacheInv {st : ModuleState} {op : ModuleOp} (hop : isShutdownOp op = false)
    (h : CacheInv st) : CacheInv (stepOp st op) := by
  cases op with
  | opGet d o => exact get_cacheInv h d o
  | opWrite dom data env => exact write_cacheInv h dom data env
  | opCloseAll => exact closeAll_cacheInv h
  | opShutdown => simp [isShutdownOp] at hop

theorem runOps_cacheInv {ops : List ModuleOp} (hops : noShutdown ops = true)
    {st : ModuleState} (h : CacheInv st) : CacheInv (runOps st ops) := by
  induction ops generalizing st with
  | nil => exact h
  | cons op rest ih =>
      simp only [noShutdown, List.all_cons, Bool.and_eq_true, Bool.not_eq_true'] at hops
      exact ih (by simp [noShutdown, hops.2]) (step_cacheInv hops.1 h)

/-! ### Capacity bound, key uniqueness, binding persistence -/

theorem get_cap {st : ModuleState} (h : st.cache_entries ≤ MAX_DOMAIN_CACHE_SIZE)
    (d : String) (o : Option Nat) :
    (get_domain_entry st d o).2.cache_entries ≤ MAX_DOMAIN_CACHE_SIZE := by
  rcases get_cases st d o with ⟨_, hgo⟩ | ⟨x, _, _, hgo⟩ | ⟨_, _, _, hgo⟩ |
    ⟨_, _, _, _, hgo⟩ | ⟨s, _, _, hlt, _, hgo⟩
  · rw [hgo]; exact h
  · rw [hgo]; exact h
  · rw [hgo]; exact h
  · rw [hgo]; simpa using h
  · rw [hgo]
    simp only [createdState]
    omega

theorem write_cap {st : ModuleState} (h : st.cache_entries ≤ MAX_DOMAIN_CACHE_SIZE)
    (dom data : Option String) (env : WriteEnv) :
    (write_domain_log st dom data env).2.cache_entries ≤ MAX_DOMAIN_CACHE_SIZE := by
  cases dom with
  | none => rw [write_null_left]; exact h
  | some d =>
      cases data with
      | none => rw [write_null_right]; exact h
      | some s =>
          cases hE : entryOf (get_domain_entry st d env.getOpen).1 with
          | none => rw [write_eq_of_none hE]; exact get_cap h d env.getOpen
          | some entry =>
              rw [write_eq_of_entry hE]
              have h2 := get_cap h d env.getOpen
              obtain ⟨hwh, hwc, _⟩ :=
                fileEntryWrite_state (get_domain_entry st d env.getOpen).2 entry s env
              cases hh : (fileEntryWrite (get_domain_entry st d env.getOpen).2
                  entry s env).2.2.domain_hash with
              | none =>
                  rw [storeEntry_hash_none hh]
                  rw [hwc]
                  exact h2
              | some l2 =>
                  rw [(storeEntry_hash_some hh d _).2.1, hwc]
                  exact h2

theorem step_cap {st : ModuleState} (h : st.cache_entries ≤ MAX_DOMAIN_CACHE_SIZE)
    (op : ModuleOp) : (stepOp st op).cache_entries ≤ MAX_DOMAIN_CACHE_SIZE := by
  cases op with
  | opGet d o => exact get_cap h d o
  | opWrite dom data env => exact write_cap h dom data env
  | opCloseAll =>
      show (close_all_domain_logs st).cache_entries ≤ _
      cases hh : st.domain_hash <;> simp [close_all_domain_logs, hh, h]
  | opShutdown =>
      show (mod_logfile_domain_shutdown st).cache_entries ≤ _
      unfold mod_logfile_domain_shutdown hashDestroy close_all_domain_logs
      cases hh : st.domain_hash <;> simp [hh, h]

theorem runOps_cap {st : ModuleState} (h : st.cache_entries ≤ MAX_DOMAIN_CACHE_SIZE)
    (ops : List ModuleOp) : (runOps st ops).cache_entries ≤ MAX_DOMAIN_CACHE_SIZE := by
  induction ops generalizing st with
  | nil => exact h
  | cons op rest ih => exact ih (step_cap h op)

theorem get_nodup {st : ModuleState} (h : keysNodupOpt st.domain_hash = true)
    (d : String) (o : Option Nat) :
    keysNodupOpt (get_domain_entry st d o).2.domain_hash = true := by
  rcases get_cases st d o with ⟨_, hgo⟩ | ⟨x, _, _, hgo⟩ | ⟨_, _, _, hgo⟩ |
    ⟨_, _, _, _, hgo⟩ | ⟨s, _, hf, _, _, hgo⟩
  · rw [hgo]; exact h
  · rw [hgo]; exact h
  · rw [hgo]; exact h
  · rw [hgo]; simpa using h
  · rw [hgo]
    simp only [createdState]
    cases hh : st.domain_hash with
    | none => simp [hashInsert, keysNodupOpt]
    | some l =>
        rw [hh] at hf h
        simp only [hashFind] at hf
        simp only [keysNodupOpt] at h
        simp only [hashInsert, keysNodupOpt]
        exact keysNodupB_append hf h (createdEntry st d s)

theorem write_nodup {st : ModuleState} (h : keysNodupOpt st.domain_hash = true)
    (dom data : Option String) (env : WriteEnv) :
    keysNodupOpt (write_domain_log st dom data env).2.domain_hash = true := by
  cases dom with
  | none => rw [write_null_left]; exact h
  | some d =>
      cases data with
      | none => rw [write_null_right]; exact h
      | some s =>
          cases hE : entryOf (get_domain_entry st d env.getOpen).1 with
          | none => rw [write_eq_of_none hE]; exact get_nodup h d env.getOpen
          | some entry =>
              rw [write_eq_of_entry hE]
              have h2 := get_nodup h d env.getOpen
              obtain ⟨hwh, _, _⟩ :=
                fileEntryWrite_state (get_domain_entry st d env.getOpen).2 entry s env
              cases hh : (fileEntryWrite (get_domain_entry st d env.getOpen).2
                  entry s env).2.2.domain_hash with
              | none => rw [storeEntry_hash_none hh, hh]; rfl
              | some l2 =>
                  rw [(storeEntry_hash_some hh d _).1]
                  rw [hwh] at hh
                  rw [hh] at h2
                  simp only [keysNodupOpt] at h2 ⊢
                  rw [keysNodupB_update]
                  exact h2

theorem step_nodup {st : ModuleState} (h : keysNodupOpt st.domain_hash = true)
    (op : ModuleOp) : keysNodupOpt (stepOp st op).domain_hash = true := by
  cases op with
  | opGet d o => exact get_nodup h d o
  | opWrite dom data env => exact write_nodup h dom data env
  | opCloseAll =>
      show keysNodupOpt (close_all_domain_logs st).domain_hash = true
      cases hh : st.domain_hash with
      | none => simpa [close_all_domain_logs, hh] using h
      | some l =>
          rw [hh] at h
          simp only [close_all_domain_logs, hh, keysNodupOpt] at h ⊢
          rw [keysNodupB_closeEntries]
          exact h
  | opShutdown =>
      show keysNodupOpt (mod_logfile_domain_shutdown st).domain_hash = true
      unfold mod_logfile_domain_shutdown hashDestroy close_all_domain_logs
      cases hh : st.domain_hash <;> simp [hh, keysNodupOpt]

theorem runOps_nodup {st : ModuleState} (h : keysNodupOpt st.domain_hash = true)
    (ops : List ModuleOp) : keysNodupOpt (runOps st ops).domain_hash = true := by
  induction ops generalizing st with
  | nil => exact h
  | cons op rest ih => exact ih (step_nodup h op)

theorem step_binding {st : ModuleState} {op : ModuleOp} {k : String}
    {e : domain_cache_entry_t} (hop : isShutdownOp op = false)
    (h : hashFind st.domain_hash k = some e) :
    ∃ e', hashFind (stepOp st op).domain_hash k = some e' ∧ e'.eid = e.eid ∧
      e'.domain = e.domain ∧ e'.logfile_path = e.logfile_path := by
  have hsome : st.domain_hash.isSome = true := by
    cases hh : st.domain_hash
    · rw [hh] at h; simp [hashFind] at h
    · simp
  cases op with
  | opGet d o => exact ⟨e, get_find_pres h d o, rfl, rfl, rfl⟩
  | opCloseAll =>
      show ∃ e', hashFind (close_all_domain_logs st).domain_hash k = some e' ∧ _
      cases hh : st.domain_hash with
      | none => rw [hh] at h; simp [hashFind] at h
      | some l =>
          rw [hh] at h
          simp only [hashFind] at h
          refine ⟨{ e with log_file := none }, ?_, rfl, rfl, rfl⟩
          simp only [close_all_domain_logs, hh, hashFind]
          rw [assocFind_closeEntries, h]
          rfl
  | opShutdown => simp [isShutdownOp] at hop
  | opWrite dom data env =>
      show ∃ e', hashFind (write_domain_log st dom data env).2.domain_hash k = some e' ∧ _
      cases dom with
      | none => rw [write_null_left]; exact ⟨e, h, rfl, rfl, rfl⟩
      | some d =>
          cases data with
          | none => rw [write_null_right]; exact ⟨e, h, rfl, rfl, rfl⟩
          | some s =>
              cases hE : entryOf (get_domain_entry st d env.getOpen).1 with
              | none =>
                  rw [write_eq_of_none hE]
                  exact ⟨e, get_find_pres h d env.getOpen, rfl, rfl, rfl⟩
              | some entry =>
                  rw [write_eq_of_entry hE]
                  have h2 : hashFind (get_domain_entry st d env.getOpen).2.domain_hash k =
                      some e := get_find_pres h d env.getOpen
                  obtain ⟨hwh, _, _⟩ :=
                    fileEntryWrite_state (get_domain_entry st d env.getOpen).2 entry s env
                  obtain ⟨hi1, hi2, hi3⟩ :=
                    fileEntryWrite_immut (get_domain_entry st d env.getOpen).2 entry s env
                  cases hh2 : (get_domain_entry st d env.getOpen).2.domain_hash with
                  | none => rw [hh2] at h2; simp [hashFind] at h2
                  | some l2 =>
                      rw [hh2] at h2
                      simp only [hashFind] at h2
                      have hwhash : (fileEntryWrite (get_domain_entry st d env.getOpen).2
                          entry s env).2.2.domain_hash = some l2 := by rw [hwh, hh2]
                      rw [(storeEntry_hash_some hwhash d _).1]
                      by_cases hkd : k = d
                      · have hbind := get_binding hsome hE
                        rw [hh2] at hbind
                        simp only [hashFind] at hbind
                        rw [hkd] at h2
                        rw [h2] at hbind
                        have hee : entry = e := by
                          injection hbind with hv
                          exact hv.symm
                        refine ⟨(fileEntryWrite (get_domain_entry st d env.getOpen).2
                          entry s env).2.1, ?_, ?_, ?_, ?_⟩
                        · show assocFind (assocUpdate l2 d _) k = _
                          rw [hkd]
                          exact assocFind_update_self h2 _
                        · rw [hi1, hee]
                        · rw [hi2, hee]
                        · rw [hi3, hee]
                      · refine ⟨e, ?_, rfl, rfl, rfl⟩
                        show assocFind (assocUpdate l2 d _) k = some e
                        rw [assocFind_update_ne hkd]
                        exact h2

theorem runOps_binding {ops : List ModuleOp} (hops : noShutdown ops = true)
    {st : ModuleState} {k : String} {e : domain_cache_entry_t}
    (h : hashFind st.domain_hash k = some e) :
    ∃ e', hashFind (runOps st ops).domain_hash k = some e' ∧ e'.eid = e.eid ∧
      e'.domain = e.domain ∧ e'.logfile_path = e.logfile_path := by
  induction ops generalizing st e with
  | nil => exact ⟨e, h, rfl, rfl, rfl⟩
  | cons op rest ih =>
      simp only [noShutdown, List.all_cons, Bool.and_eq_true, Bool.not_eq_true'] at hops
      obtain ⟨e1, h1, he1, hd1, hp1⟩ := step_binding hops.1 h
      obtain ⟨e2, h2, he2, hd2, hp2⟩ := ih (by simp [noShutdown, hops.2]) h1
      exact ⟨e2, h2, by rw [he2, he1], by rw [hd2, hd1], by rw [hp2, hp1]⟩

/-! ### Shutdown facts -/

theorem shutdown_of_cacheInv {st : ModuleState} (h : CacheInv st) :
    (mod_logfile_domain_shutdown st).openHandles = 0 ∧
    (mod_logfile_domain_shutdown st).domain_hash = none := by
  obtain ⟨l, hh, _, _, ho⟩ := h
  unfold mod_logfile_domain_shutdown hashDestroy close_all_domain_logs
  simp [hh, openCount_closeEntries, ho]

/-! ### Text-extraction lemmas -/

theorem strstrAfter_first : ∀ (hay pat r : List Char), strstrAfter hay pat = some r →
    ∃ i, pat.isPrefixOf (hay.drop i) = true ∧ r = (hay.drop i).drop pat.length ∧
      ∀ j, j < i → pat.isPrefixOf (hay.drop j) = false := by
  intro hay
  induction hay with
  | nil =>
      intro pat r h
      simp only [strstrAfter] at h
      by_cases hp : pat.isEmpty
      · rw [if_pos hp] at h
        injection h with hr
        have hpe : pat = [] := by
          cases pat
          · rfl
          · simp [List.isEmpty] at hp
        subst hpe
        refine ⟨0, rfl, ?_, ?_⟩
        · rw [← hr]; rfl
        · intro j hj; omega
      · rw [if_neg hp] at h; cases h
  | cons c rest ih =>
      intro pat r h
      simp only [strstrAfter] at h
      by_cases hp : pat.isPrefixOf (c :: rest) = true
      · rw [if_pos hp] at h
        injection h with hr
        refine ⟨0, by simpa using hp, by rw [← hr]; rfl, ?_⟩
        intro j hj; omega
      · rw [if_neg hp] at h
        obtain ⟨i, h1, h2, h3⟩ := ih pat r h
        refine ⟨i + 1, ?_, ?_, ?_⟩
        · simpa [List.drop_succ_cons] using h1
        · simpa [List.drop_succ_cons] using h2
        · intro j hj
          cases j with
          | zero =>
              simp only [List.drop_zero]
              exact Bool.eq_false_iff.mpr hp
          | succ j' =>
              rw [List.drop_succ_cons]
              exact h3 j' (by omega)

theorem copyDomainRun_length : ∀ (p : List Char) (i : Nat),
    (copyDomainRun p i).length ≤ 127 - i := by
  intro p
  induction p with
  | nil => intro i; simp [copyDomainRun]
  | cons c rest ih =>
      intro i
      simp only [copyDomainRun]
      by_cases hc : (!isspaceC c && decide (i + 1 < 128)) = true
      · rw [if_pos hc]
        simp only [List.length_cons]
        have h2 := ih (i + 1)
        have h3 : i + 1 < 128 := of_decide_eq_true ((Bool.and_eq_true _ _).mp hc).2
        omega
      · rw [if_neg hc]
        simp

theorem extract_msg_shape (m : String) :
    extract_domain_from_msg (some m) = none ∨
    ∃ run, extract_domain_from_msg (some m) = some (String.mk run) ∧ run ≠ [] ∧
      run.length ≤ 127 := by
  unfold extract_domain_from_msg
  cases h1 : strstrAfter m.toList ("domain_name=".toList) with
  | some rest =>
      simp only [h1]
      by_cases hr : (copyDomainRun rest 0).isEmpty
      · left; simp [hr]
      · right
        refine ⟨copyDomainRun rest 0, by simp [hr], ?_, ?_⟩
        · intro hh; rw [hh] at hr; simp at hr
        · simpa using copyDomainRun_length rest 0
  | none =>
      cases h2 : strstrAfter m.toList ("domain=".toList) with
      | some rest =>
          simp only [h1, h2]
          by_cases hr : (copyDomainRun rest 0).isEmpty
          · left; simp [hr]
          · right
            refine ⟨copyDomainRun rest 0, by simp [hr], ?_, ?_⟩
            · intro hh; rw [hh] at hr; simp at hr
            · simpa using copyDomainRun_length rest 0
      | none => left; simp only [h1, h2]

theorem extract_msg_length {m s : String} (h : extract_domain_from_msg (some m) = some s) :
    s.length ≤ 127 := by
  rcases extract_msg_shape m with hn | ⟨run, he, _, hl⟩
  · rw [hn] at h; cases h
  · rw [he] at h
    injection h with hs
    rw [← hs]
    exact hl

theorem extract_msg_ne_empty {m s : String} (h : extract_domain_from_msg (some m) = some s) :
    s ≠ "" := by
  rcases extract_msg_shape m with hn | ⟨run, he, hne, _⟩
  · rw [hn] at h; cases h
  · rw [he] at h
    injection h with hs
    rw [← hs]
    intro hcon
    apply hne
    have : (String.mk run).data = ("" : String).data := by rw [hcon]
    simpa using this

/-! ### Claim theorems -/

/-- C1 counterexample: with a handle present, a failing first write attempt,
a successful reopen and a failing retried write, the write/retry protocol of
`write_domain_log` (lines 235–258) returns `SWITCH_STATUS_SUCCESS`, while the
claim demands Failure when the retried write fails. -/
theorem retry_write_failure_reports_success :
    (fileEntryWrite ⟨"log", some [("a", ⟨0, "a", some 0, 5, DEFAULT_LIMIT, "p"⟩)], 1, 1, 1, 1⟩
        ⟨0, "a", some 0, 5, DEFAULT_LIMIT, "p"⟩ "x"
        ⟨none, WriteAttemptRes.err, some 7, WriteAttemptRes.err⟩).1 = SwitchStatus.success
    ∧ SwitchStatus.success ≠ SwitchStatus.falseStatus := by
  exact ⟨by decide, by decide⟩

/-- C1 amended: on the failure path (handle absent or first write attempt
failed), `write` returns Failure exactly when the reopen fails; when the
reopen succeeds, the retried write's return value is ignored and Success is
reported whether or not any write attempt succeeded. -/
theorem write_failure_iff_reopen_fails (st : ModuleState) (entry : domain_cache_entry_t)
    (data : String) (env : WriteEnv)
    (h : entry.log_file = none ∨ env.firstWrite = WriteAttemptRes.err) :
    ((fileEntryWrite st entry data env).1 = SwitchStatus.falseStatus ↔ env.reopen = none) := by
  have hcond : (entry.log_file.isNone || isErr env.firstWrite) = true := by
    rcases h with h | h
    · simp [h]
    · simp [h, isErr]
  unfold fileEntryWrite
  rw [if_pos hcond]
  cases hr : env.reopen with
  | none => simp [open_domain_logfile]
  | some s => simp [open_domain_logfile]

/-- Witness for `write_failure_iff_reopen_fails` at a concrete entry with an
absent handle and a failing reopen. -/
theorem write_failure_iff_reopen_fails_witness :
    (fileEntryWrite ⟨"log", some [], 0, 0, 0, 0⟩ ⟨0, "a", none, 5, DEFAULT_LIMIT, "p"⟩ "x"
        ⟨none, WriteAttemptRes.err, none, WriteAttemptRes.err⟩).1 = SwitchStatus.falseStatus :=
  (write_failure_iff_reopen_fails ⟨"log", some [], 0, 0, 0, 0⟩
      ⟨0, "a", none, 5, DEFAULT_LIMIT, "p"⟩ "x"
      ⟨none, WriteAttemptRes.err, none, WriteAttemptRes.err⟩ (Or.inl rfl)).mpr rfl

/-- C2: with the cache at capacity (256) and a previously-unseen, non-empty
domain key, `get_domain_entry` takes the warning branch and rejects, leaving
the whole state (entry count and every binding) unchanged; and from module
load, the entry counter never exceeds 256 under any operation sequence. -/
theorem cache_admission_bound :
    (∀ st d o, hashFind st.domain_hash d = none → d.isEmpty = false →
        MAX_DOMAIN_CACHE_SIZE ≤ st.cache_entries →
        get_domain_entry st d o = (GetOutcome.rejectedFull, st))
    ∧ (∀ log_dir ops,
        (runOps (initState log_dir) ops).cache_entries ≤ MAX_DOMAIN_CACHE_SIZE) := by
  constructor
  · intro st d o hf hd hc
    simp [get_domain_entry, hd, hf, hc]
  · intro log_dir ops
    exact runOps_cap (Nat.zero_le _) ops

/-- Witness for `cache_admission_bound` at a concrete full state and the
empty trace. -/
theorem cache_admission_bound_witness :
    get_domain_entry ⟨"log", some [], 256, 0, 0, 0⟩ "x" none =
      (GetOutcome.rejectedFull, ⟨"log", some [], 256, 0, 0, 0⟩)
    ∧ (runOps (initState "log") []).cache_entries ≤ MAX_DOMAIN_CACHE_SIZE :=
  ⟨cache_admission_bound.1 ⟨"log", some [], 256, 0, 0, 0⟩ "x" none (by decide) (by decide)
      (by decide),
   cache_admission_bound.2 "log" []⟩

/-- C3: singleton-per-key: two `get_domain_entry` calls for the same exact key
(separated by arbitrary shutdown-free operations) that both return an entry
return the identical entry (same allocation identity, domain copy and path);
the mapping's keys stay unique from load under every operation sequence; and
no non-shutdown step ever removes a key's binding or changes its identity. -/
theorem getOrCreate_singleton_per_key :
    (∀ log_dir ops1 d o1 ops2 o2 e1 e2,
        noShutdown ops1 = true → noShutdown ops2 = true →
        entryOf (get_domain_entry (runOps (initState log_dir) ops1) d o1).1 = some e1 →
        entryOf (get_domain_entry
            (runOps (get_domain_entry (runOps (initState log_dir) ops1) d o1).2 ops2)
            d o2).1 = some e2 →
        e2.eid = e1.eid ∧ e2.domain = e1.domain ∧ e2.logfile_path = e1.logfile_path)
    ∧ (∀ log_dir ops, keysNodupOpt (runOps (initState log_dir) ops).domain_hash = true)
    ∧ (∀ st op k e, isShutdownOp op = false → hashFind st.domain_hash k = some e →
        ∃ e', hashFind (stepOp st op).domain_hash k = some e' ∧ e'.eid = e.eid) := by
  refine ⟨?_, ?_, ?_⟩
  · intro log_dir ops1 d o1 ops2 o2 e1 e2 h1 h2 hE1 hE2
    have hinv1 : CacheInv (runOps (initState log_dir) ops1) :=
      runOps_cacheInv h1 (cacheInv_init log_dir)
    have hsome : (runOps (initState log_dir) ops1).domain_hash.isSome = true := by
      obtain ⟨l, hh, _⟩ := hinv1
      simp [hh]
    have hb1 := get_binding hsome hE1
    obtain ⟨e', hb2, he', hd', hp'⟩ := runOps_binding h2 hb1
    have hdne : d.isEmpty = false := get_d_nonempty hE1
    rw [get_found_of_binding hdne hb2 o2] at hE2
    simp only [entryOf, Option.some.injEq] at hE2
    rw [← hE2]
    exact ⟨he', hd', hp'⟩
  · intro log_dir ops
    exact runOps_nodup (by rfl) ops
  · intro st op k e hop h
    obtain ⟨e', h1, h2, _, _⟩ := step_binding hop h
    exact ⟨e', h1, h2⟩

/-- Witness for `getOrCreate_singleton_per_key`: a create followed directly by
a lookup of the same key returns the same entry. -/
theorem getOrCreate_singleton_per_key_witness :
    (⟨0, "a", some 0, 7, DEFAULT_LIMIT, "log/domain_a.log"⟩ : domain_cache_entry_t).eid =
      (⟨0, "a", some 0, 7, DEFAULT_LIMIT, "log/domain_a.log"⟩ : domain_cache_entry_t).eid
    ∧ (⟨0, "a", some 0, 7, DEFAULT_LIMIT, "log/domain_a.log"⟩ : domain_cache_entry_t).domain =
      (⟨0, "a", some 0, 7, DEFAULT_LIMIT, "log/domain_a.log"⟩ : domain_cache_entry_t).domain
    ∧ (⟨0, "a", some 0, 7, DEFAULT_LIMIT,
        "log/domain_a.log"⟩ : domain_cache_entry_t).logfile_path =
      (⟨0, "a", some 0, 7, DEFAULT_LIMIT,
        "log/domain_a.log"⟩ : domain_cache_entry_t).logfile_path :=
  getOrCreate_singleton_per_key.1 "log" [] "a" (some 7) [] none
    ⟨0, "a", some 0, 7, DEFAULT_LIMIT, "log/domain_a.log"⟩
    ⟨0, "a", some 0, 7, DEFAULT_LIMIT, "log/domain_a.log"⟩
    rfl rfl (by decide) (by decide)

/-- C4: extraction priority: a non-empty `domain_name` channel variable wins
over `domain`, and both win over any token in the rendered text; in the text
the first occurrence of `domain_name=` is preferred over `domain=` and only
the first match of a pattern is used; an empty captured run yields none, never
an empty key. -/
theorem extract_domain_priority :
    (∀ ch msg s, ch.domain_name = some s → s.isEmpty = false →
        resolve_domain (some ch) msg = some s)
    ∧ (∀ ch msg t, zstr ch.domain_name = true → ch.domainVar = some t →
        t.isEmpty = false → resolve_domain (some ch) msg = some t)
    ∧ (∀ ch msg s, zstr (extract_domain ch) = true →
        extract_domain_from_msg (some msg) = some s → resolve_domain ch msg = some s)
    ∧ (∀ hay pat r, strstrAfter hay pat = some r →
        ∃ i, pat.isPrefixOf (hay.drop i) = true ∧ r = (hay.drop i).drop pat.length ∧
          ∀ j, j < i → pat.isPrefixOf (hay.drop j) = false)
    ∧ (∀ m rest, strstrAfter m.toList ("domain_name=".toList) = some rest →
        extract_domain_from_msg (some m) =
          (if (copyDomainRun rest 0).isEmpty then none
           else some (String.mk (copyDomainRun rest 0))))
    ∧ (∀ m s, extract_domain_from_msg (some m) = some s → s ≠ "") := by
  refine ⟨?_, ?_, ?_, strstrAfter_first, ?_, ?_⟩
  · intro ch msg s h1 h2
    simp [resolve_domain, extract_domain, switch_channel_get_variable, zstr, h1, h2]
  · intro ch msg t h1 h2 h3
    cases hdn : ch.domain_name with
    | none =>
        simp [resolve_domain, extract_domain, switch_channel_get_variable, zstr, hdn, h2, h3]
    | some u =>
        rw [hdn] at h1
        simp only [zstr] at h1
        simp [resolve_domain, extract_domain, switch_channel_get_variable, zstr, hdn, h1,
          h2, h3]
  · intro ch msg s hz he
    by_cases hm : msg.isEmpty
    · have : msg = "" := (String.isEmpty_iff msg).mp hm
      rw [this] at he
      have : extract_domain_from_msg (some "") = none := by decide
      rw [this] at he
      cases he
    · simp only [resolve_domain, hz, Bool.true_and, hm, Bool.not_false, if_true, he]
  · intro m rest h
    simp only [extract_domain_from_msg]
    rw [h]
  · intro m s h
    exact extract_msg_ne_empty h

/-- Witness for `extract_domain_priority`: the §8 example — the context's
`domain_name` wins over a conflicting `domain=` token in the text. -/
theorem extract_domain_priority_witness :
    resolve_domain (some ⟨some "acme.com", none, none⟩) "x domain=other.com" =
      some "acme.com" :=
  extract_domain_priority.1 ⟨some "acme.com", none, none⟩ "x domain=other.com" "acme.com"
    rfl (by decide)

set_option maxRecDepth 8000 in
/-- C5 counterexample: a 300-character `domain_name` channel variable is
returned by `extract_domain` verbatim, 300 characters long — it is not
truncated to 127 characters on extraction. -/
theorem context_domain_not_truncated :
    extract_domain (some ⟨some (String.mk (List.replicate 300 'a')), none, none⟩) =
      some (String.mk (List.replicate 300 'a'))
    ∧ (String.mk (List.replicate 300 'a')).length = 300
    ∧ ¬ (String.mk (List.replicate 300 'a')).length ≤ 127 := by
  have hlen : (String.mk (List.replicate 300 'a')).length = 300 := by
    show (List.replicate 300 'a').length = 300
    exact List.length_replicate 300 'a'
  have hne : (String.mk (List.replicate 300 'a')).isEmpty = false := by
    rw [Bool.eq_false_iff]
    intro hcon
    have he := (String.isEmpty_iff _).mp hcon
    have hl := congrArg String.length he
    rw [hlen] at hl
    have h0 : ("" : String).length = 0 := rfl
    omega
  refine ⟨?_, hlen, ?_⟩
  · show (if !zstr (some (String.mk (List.replicate 300 'a'))) then
        some (String.mk (List.replicate 300 'a'))
      else if !zstr none then (none : Option String) else none) =
      some (String.mk (List.replicate 300 'a'))
    rw [show zstr (some (String.mk (List.replicate 300 'a'))) = false from hne]
    rfl
  · rw [hlen]
    omega

/-- C5 amended: keys produced by the text-scanning path are truncated to at
most 127 characters, and the `domain` field stored in a freshly created cache
entry is the 127-character truncation of the key; the context-path key itself
is used untruncated as the cache key and in the file path (see
`context_domain_not_truncated`); the bounded copies preclude overflow. -/
theorem extraction_truncation_amended :
    (∀ m s, extract_domain_from_msg (some m) = some s → s.length ≤ 127)
    ∧ (∀ st d o e, (get_domain_entry st d o).1 = GetOutcome.created e →
        e.domain = switch_copy_string d 128 ∧ e.domain.length ≤ 127) := by
  constructor
  · intro m s h
    exact extract_msg_length h
  · intro st d o e h
    rcases get_cases st d o with ⟨_, hgo⟩ | ⟨x, _, _, hgo⟩ | ⟨_, _, _, hgo⟩ |
      ⟨_, _, _, _, hgo⟩ | ⟨s, _, _, _, _, hgo⟩
    · rw [hgo] at h; cases h
    · rw [hgo] at h; cases h
    · rw [hgo] at h; cases h
    · rw [hgo] at h; cases h
    · rw [hgo] at h
      have he : createdEntry st d s = e := by injection h
      rw [← he]
      constructor
      · rfl
      · show (String.mk (d.toList.take (128 - 1))).length ≤ 127
        have : (String.mk (d.toList.take (128 - 1))).length =
            (d.toList.take (128 - 1)).length := rfl
        rw [this]
        exact le_trans (List.length_take_le _ _) (by omega)

/-- Witness for `extraction_truncation_amended` at a short text key and a
concrete entry creation. -/
theorem extraction_truncation_amended_witness :
    ("abc" : String).length ≤ 127
    ∧ ((⟨0, "a", some 0, 0, DEFAULT_LIMIT,
          "log/domain_a.log"⟩ : domain_cache_entry_t).domain = switch_copy_string "a" 128
       ∧ (⟨0, "a", some 0, 0, DEFAULT_LIMIT,
          "log/domain_a.log"⟩ : domain_cache_entry_t).domain.length ≤ 127) :=
  ⟨extraction_truncation_amended.1 "domain=abc" "abc" (by decide),
   extraction_truncation_amended.2 (initState "log") "a" (some 0)
     ⟨0, "a", some 0, 0, DEFAULT_LIMIT, "log/domain_a.log"⟩ (by decide)⟩

/-- C6 (code evaluated at the failing input): the capture loop of
`extract_domain_from_msg` stops only at whitespace, the 127-character cap, or
the end — not at non-printable characters, although its own comment says
"copy until whitespace or non-printable or end": on `"domain=a\x01b"` the
code captures `"a\x01b"`, keeping the non-printable, non-whitespace byte
0x01, where the claim requires the capture to stop and yield `"a"`. -/
theorem text_capture_keeps_nonprintable :
    extract_domain_from_msg (some "domain=a\x01b") = some "a\x01b"
    ∧ isprintC '\x01' = false ∧ isspaceC '\x01' = false := by
  refine ⟨by decide, by decide, by decide⟩

/-- C7: `writtenBytes` accounting of one write call: grown by the byte count
the consulted write attempt reported (a failed attempt reports zero), reset
to the on-disk size when the reopen runs and succeeds, and unchanged when the
reopen fails — exactly the spec's formula `spec_written_bytes`. -/
theorem written_bytes_accounting (st : ModuleState) (entry : domain_cache_entry_t)
    (data : String) (env : WriteEnv) :
    ((fileEntryWrite st entry data env).2.1).log_size = spec_written_bytes entry env := by
  unfold fileEntryWrite spec_written_bytes
  cases hl : entry.log_file with
  | none =>
      cases hw : env.firstWrite <;> cases hr : env.reopen <;>
        simp [open_domain_logfile, isErr, writtenOf, hl]
  | some h0 =>
      cases hw : env.firstWrite with
      | ok w => simp [open_domain_logfile, isErr, hl, writtenOf]
      | err =>
          cases hr : env.reopen <;> simp [open_domain_logfile, isErr, hl, writtenOf]

/-- C8: the per-event entry point `mod_logfile_domain_logger` returns
`SWITCH_STATUS_SUCCESS` for every input: a null node, an internal
(anti-recursion) node, an event with no resolvable domain, and events whose
`write_domain_log` call is rejected or fails — the write's status is
discarded. -/
theorem logger_always_success (st : ModuleState) (node : Option LogNode)
    (levelStr : String) (renderPtr : Option (Option String)) (date : String)
    (wenv : WriteEnv) :
    (mod_logfile_domain_logger st node levelStr renderPtr date wenv).1 =
      SwitchStatus.success := by
  cases node with
  | none => rfl
  | some nd =>
      unfold mod_logfile_domain_logger
      by_cases hi : isInternalNode nd = true
      · simp [hi]
      · simp only [Bool.not_eq_true] at hi
        simp only [hi, Bool.false_eq_true, if_false]
        by_cases hz :
            (!zstr (resolve_domain (channelOf nd) (renderOutcome renderPtr))) = true
        · simp [hz]
        · simp only [Bool.not_eq_true] at hz
          simp [hz]

/-- C9 counterexample: after a completed shutdown (hash destroyed, all handles
closed, entry counter left at its old value), a write for a fresh domain is
neither rejected nor a no-op: `get_domain_entry` re-opens the file, the line
is written, Success is returned, and one file handle is left open (leaked,
as the insertion into the destroyed cache is discarded). -/
theorem post_shutdown_write_not_rejected :
    (write_domain_log
        (mod_logfile_domain_shutdown
          (runOps (initState "log") [ModuleOp.opGet "a" (some 0)]))
        (some "b") (some "x")
        ⟨some 0, WriteAttemptRes.ok 1, none, WriteAttemptRes.err⟩).1 =
      SwitchStatus.success
    ∧ (write_domain_log
        (mod_logfile_domain_shutdown
          (runOps (initState "log") [ModuleOp.opGet "a" (some 0)]))
        (some "b") (some "x")
        ⟨some 0, WriteAttemptRes.ok 1, none, WriteAttemptRes.err⟩).2.openHandles = 1 := by
  exact ⟨by decide, by decide⟩

/-- C9 amended: `close_all_domain_logs` leaves every cached entry's handle
closed, and running `mod_logfile_domain_shutdown` from any state reachable
without a prior shutdown leaves zero open handles and no cache; the module
however has no guard against writes issued after shutdown (see
`post_shutdown_write_not_rejected`). -/
theorem shutdown_closes_all_handles :
    (∀ st p, p ∈ entriesOf (close_all_domain_logs st) → p.2.log_file = none)
    ∧ (∀ log_dir ops, noShutdown ops = true →
        (mod_logfile_domain_shutdown (runOps (initState log_dir) ops)).openHandles = 0
        ∧ (mod_logfile_domain_shutdown
            (runOps (initState log_dir) ops)).domain_hash = none) := by
  constructor
  · intro st p hp
    cases hh : st.domain_hash with
    | none =>
        simp [close_all_domain_logs, hh, entriesOf] at hp
    | some l =>
        simp only [close_all_domain_logs, hh, entriesOf, Option.getD_some, closeEntries,
          List.mem_map, Prod.exists] at hp
        obtain ⟨a, b, hab, hfq⟩ := hp
        rw [← hfq]
  · intro log_dir ops hops
    exact shutdown_of_cacheInv (runOps_cacheInv hops (cacheInv_init log_dir))

/-- Witness for `shutdown_closes_all_handles` at a one-entry state and a
one-operation trace. -/
theorem shutdown_closes_all_handles_witness :
    (("a", ⟨0, "a", none, 7, DEFAULT_LIMIT, "p"⟩) :
        String × domain_cache_entry_t).2.log_file = none
    ∧ ((mod_logfile_domain_shutdown
          (runOps (initState "log") [ModuleOp.opGet "a" (some 0)])).openHandles = 0
       ∧ (mod_logfile_domain_shutdown
          (runOps (initState "log") [ModuleOp.opGet "a" (some 0)])).domain_hash = none) :=
  ⟨shutdown_closes_all_handles.1
      ⟨"log", some [("a", ⟨0, "a", some 3, 7, DEFAULT_LIMIT, "p"⟩)], 1, 1, 4, 1⟩
      ("a", ⟨0, "a", none, 7, DEFAULT_LIMIT, "p"⟩) (by decide),
   shutdown_closes_all_handles.2 "log" [ModuleOp.opGet "a" (some 0)] (by decide)⟩

/-- C10: when the render capability is unresolved or the render call fails,
the rendered message is empty, so the text-scanning fallback is never
consulted: an event whose structured context yields no non-empty domain
attribute is dropped with the state untouched, and an event whose context
does yield a domain is written with the `"(message)"` placeholder as its
message (`mkLogLine … ""`). -/
theorem no_render_fallback_never_consulted (st : ModuleState) (nd : LogNode)
    (levelStr : String) (renderPtr : Option (Option String)) (date : String)
    (wenv : WriteEnv) (hrp : renderPtr = none ∨ renderPtr = some none)
    (hint : isInternalNode nd = false) :
    (zstr (extract_domain (channelOf nd)) = true →
        mod_logfile_domain_logger st (some nd) levelStr renderPtr date wenv =
          (SwitchStatus.success, st))
    ∧ (zstr (extract_domain (channelOf nd)) = false →
        mod_logfile_domain_logger st (some nd) levelStr renderPtr date wenv =
          (SwitchStatus.success,
           (write_domain_log st (extract_domain (channelOf nd))
              (some (mkLogLine date levelStr nd (channelOf nd) "")) wenv).2)) := by
  have hre : renderOutcome renderPtr = "" := by
    rcases hrp with h | h
    · rw [h]; rfl
    · rw [h]; rfl
  have hres : resolve_domain (channelOf nd) "" = extract_domain (channelOf nd) := by
    simp [resolve_domain, show ("" : String).isEmpty = true from rfl]
  constructor
  · intro hz
    unfold mod_logfile_domain_logger
    simp [hint, hre, hres, hz]
  · intro hz
    unfold mod_logfile_domain_logger
    simp [hint, hre, hres, hz]

/-- Witness for `no_render_fallback_never_consulted`: capability unresolved,
context supplies a domain — the line written carries the placeholder. -/
theorem no_render_fallback_never_consulted_witness :
    mod_logfile_domain_logger (initState "log")
        (some ⟨some "f.c", some "fn", 3, some (some ⟨some "acme", none, some "u"⟩)⟩)
        "INFO" none "2026-01-01 00:00:00"
        ⟨some 0, WriteAttemptRes.ok 1, none, WriteAttemptRes.err⟩ =
      (SwitchStatus.success,
       (write_domain_log (initState "log")
          (extract_domain (channelOf
            ⟨some "f.c", some "fn", 3, some (some ⟨some "acme", none, some "u"⟩)⟩))
          (some (mkLogLine "2026-01-01 00:00:00" "INFO"
            ⟨some "f.c", some "fn", 3, some (some ⟨some "acme", none, some "u"⟩)⟩
            (channelOf
              ⟨some "f.c", some "fn", 3, some (some ⟨some "acme", none, some "u"⟩)⟩) ""))
          ⟨some 0, WriteAttemptRes.ok 1, none, WriteAttemptRes.err⟩).2) :=
  (no_render_fallback_never_consulted (initState "log")
      ⟨some "f.c", some "fn", 3, some (some ⟨some "acme", none, some "u"⟩)⟩
      "INFO" none "2026-01-01 00:00:00"
      ⟨some 0, WriteAttemptRes.ok 1, none, WriteAttemptRes.err⟩
      (Or.inl rfl) (by decide)).2 (by decide)
